import Mathlib

/-!
Shallow embedding of `applications/services/cli/cli_commands.c` (Flipper
firmware CLI commands): the bounded relay stream buffer used by the `log`
command, the `log` command handler itself, the `top` live-refresh loop and
the `help` column paginator, together with proofs of the behavioural
properties stated in the specification.

Bytes are modelled as `Nat`, payloads as `List Nat`.  The cancellation
token (`cli_cmd_interrupt_received`) is modelled as a boolean signal over
discrete time; loops take an explicit iteration bound `fuel`, which is
irrelevant whenever the modelled run terminates within the bound (all the
runs the theorems below speak about do).
-/

namespace CliCommands

/-- Capacity of the ring buffer allocated by `cli_command_log`
(`CLI_COMMAND_LOG_RING_SIZE`). -/
def CLI_COMMAND_LOG_RING_SIZE : Nat := 2048

/-- Size of the stack read buffer in `cli_command_log`
(`CLI_COMMAND_LOG_BUFFER_SIZE`). -/
def CLI_COMMAND_LOG_BUFFER_SIZE : Nat := 64

/-- A `FuriStreamBuffer`: a FIFO byte queue of fixed capacity.  `data`
lists the queued bytes, oldest first. -/
structure StreamBuffer where
  capacity : Nat
  data : List Nat
  deriving Repr, DecidableEq

/-- Model of `furi_stream_buffer_send` with timeout 0, as used by the producer path:
non-blocking, accepts as many leading bytes of the payload as fit in the
free space and silently drops the rest.  Returns the new buffer and the
number of bytes accepted. -/
def furi_stream_buffer_send (sb : StreamBuffer) (payload : List Nat) :
    StreamBuffer × Nat :=
  let accepted := min payload.length (sb.capacity - sb.data.length)
  ({ sb with data := sb.data ++ payload.take accepted }, accepted)

/-- Model of `furi_stream_buffer_receive`: removes and returns up to `maxBytes`
bytes from the front of the queue (the timeout only matters for an empty
buffer, where an empty result is returned). -/
def furi_stream_buffer_receive (sb : StreamBuffer) (maxBytes : Nat) :
    StreamBuffer × List Nat :=
  ({ sb with data := sb.data.drop maxBytes }, sb.data.take maxBytes)

/-- Model of `cli_command_log_tx_callback`: the registered log sink forwards the
emitted record's raw bytes into the ring via a non-blocking send. -/
def cli_command_log_tx_callback (ring : StreamBuffer) (payload : List Nat) :
    StreamBuffer :=
  (furi_stream_buffer_send ring payload).1

/-- A sequence of producer writes, applied through the sink callback. -/
def txAll (ring : StreamBuffer) (payloads : List (List Nat)) : StreamBuffer :=
  payloads.foldl cli_command_log_tx_callback ring

/-- Reading until empty: repeated `furi_stream_buffer_receive` calls of
`CLI_COMMAND_LOG_BUFFER_SIZE` bytes each, concatenating the results, until
the buffer is empty. -/
def drainAll (sb : StreamBuffer) : List Nat :=
  if h : sb.data = [] then []
  else
    (furi_stream_buffer_receive sb CLI_COMMAND_LOG_BUFFER_SIZE).2 ++
      drainAll (furi_stream_buffer_receive sb CLI_COMMAND_LOG_BUFFER_SIZE).1
termination_by sb.data.length
decreasing_by
  simp only [furi_stream_buffer_receive, List.length_drop]
  have hd : sb.data.length ≠ 0 := fun hz => h (List.eq_nil_of_length_eq_zero hz)
  have hb : CLI_COMMAND_LOG_BUFFER_SIZE = 64 := rfl
  omega

/-- The `FuriLogLevel` enumeration. -/
inductive FuriLogLevel where
  | default
  | error
  | warn
  | info
  | debug
  | trace
  deriving Repr, DecidableEq

/-- Observable calls made by `cli_command_log`, in program order.
`readBuffer t` / `writeOutput t` carry the fine-grained time of the call:
the cancellation check of loop iteration `i` happens at time `2*i`, the
read and the echoing write of that iteration at time `2*i + 1`. -/
inductive LogEvent where
  | allocRing
  | printHelp
  | printCurrentLevel
  | setLevel (l : FuriLogLevel)
  | addHandler
  | removeHandler
  | readBuffer (t : Nat)
  | writeOutput (t : Nat)
  | freeRing
  deriving Repr, DecidableEq

/-- The global logging state touched by `cli_command_log`: the device-wide
log level and the number of registered log handlers. -/
structure LogState where
  level : FuriLogLevel
  handlers : Nat
  deriving Repr, DecidableEq

/-- Effect of one observable call on the global logging state. -/
def applyEvent (st : LogState) : LogEvent → LogState
  | LogEvent.setLevel l => { st with level := l }
  | LogEvent.addHandler => { st with handlers := st.handlers + 1 }
  | LogEvent.removeHandler => { st with handlers := st.handlers - 1 }
  | _ => st

/-- State after replaying a call trace. -/
def runEvents (st : LogState) (es : List LogEvent) : LogState :=
  es.foldl applyEvent st

/-- The relay loop of `cli_command_log`:
`while(!cli_cmd_interrupt_received(cli)) { receive; cli_write; }`.
`token t` is the cancellation token's value at fine time `t`; iteration
`i` checks it at time `2*i` and, when it is unset, reads the buffer and
echoes at time `2*i + 1`.  `fuel` bounds the number of iterations. -/
def logLoopEvents (token : Nat → Bool) : Nat → Nat → List LogEvent
  | _, 0 => []
  | i, fuel + 1 =>
    if token (2 * i) then []
    else
      LogEvent.readBuffer (2 * i + 1) :: LogEvent.writeOutput (2 * i + 1) ::
        logLoopEvents token (i + 1) fuel

/-- Trace semantics of `cli_command_log`.  `st` is the global logging state at
entry (so `st.level` is the `previous_level` the handler remembers),
`args` the argument string, `parse` the collaborator
`furi_log_level_from_string`, `token` the cancellation token signal. -/
def cli_command_log (st : LogState) (args : String)
    (parse : String → Option FuriLogLevel) (token : Nat → Bool)
    (fuel : Nat) : List LogEvent :=
  if 0 < args.length then
    match parse args with
    | none => [LogEvent.allocRing, LogEvent.printHelp, LogEvent.freeRing]
    | some lvl =>
      [LogEvent.allocRing, LogEvent.setLevel lvl, LogEvent.printCurrentLevel,
          LogEvent.addHandler] ++
        logLoopEvents token 0 fuel ++
        [LogEvent.removeHandler, LogEvent.setLevel st.level, LogEvent.freeRing]
  else
    [LogEvent.allocRing, LogEvent.printCurrentLevel, LogEvent.addHandler] ++
      logLoopEvents token 0 fuel ++
      [LogEvent.removeHandler, LogEvent.freeRing]

/-- Recognises a buffer read that happens at or after fine time `t`. -/
def isReadAtOrAfter (t : Nat) : LogEvent → Bool
  | LogEvent.readBuffer s => t ≤ s
  | _ => false

/-- Number of buffer reads at or after fine time `t` in a trace. -/
def countReadsAtOrAfter (t : Nat) (es : List LogEvent) : Nat :=
  es.countP (isReadAtOrAfter t)

/-- Recognises the ring allocation event. -/
def isAllocRing : LogEvent → Bool
  | LogEvent.allocRing => true
  | _ => false

/-- Recognises the ring free event. -/
def isFreeRing : LogEvent → Bool
  | LogEvent.freeRing => true
  | _ => false

/-- Recognises the sink registration event. -/
def isAddHandler : LogEvent → Bool
  | LogEvent.addHandler => true
  | _ => false

/-- The cancellation token is set at most once and never reset: once true
it stays true. -/
def TokenMono (token : Nat → Bool) : Prop :=
  ∀ i j, i ≤ j → token i = true → token j = true

/-- Observable output of `cli_command_top`, in program order. -/
inductive TopEvent where
  | clearHideCursor
  | cursorToOrigin
  | frame
  | showCursor
  deriving Repr, DecidableEq

/-- The loop of `cli_command_top`: check the token at iteration `i`; if
unset, optionally reposition the cursor (only when `interval` is nonzero),
render one frame, then sleep and repeat when `interval > 0`, else break. -/
def topLoopEvents (interval : Int) (token : Nat → Bool) :
    Nat → Nat → List TopEvent
  | _, 0 => []
  | i, fuel + 1 =>
    if token i then []
    else
      (if interval ≠ 0 then [TopEvent.cursorToOrigin] else []) ++
        [TopEvent.frame] ++
        (if interval > 0 then topLoopEvents interval token (i + 1) fuel else [])

/-- Trace semantics of `cli_command_top`: clear-screen/hide-cursor at
entry and show-cursor at exit are emitted only when `interval` is nonzero,
around the render loop. -/
def cli_command_top (interval : Int) (token : Nat → Bool) (fuel : Nat) :
    List TopEvent :=
  (if interval ≠ 0 then [TopEvent.clearHideCursor] else []) ++
    topLoopEvents interval token 0 fuel ++
    (if interval ≠ 0 then [TopEvent.showCursor] else [])

/-- Recognises a rendered frame. -/
def isFrame : TopEvent → Bool
  | TopEvent.frame => true
  | _ => false

/-- Number of frames rendered in a `top` trace. -/
def countFrames (es : List TopEvent) : Nat :=
  es.countP isFrame

/-- A registered CLI command as the help listing sees it: its name and
whether `CliCommandFlagHidden` is set. -/
structure CliCommand where
  name : String
  hidden : Bool
  deriving Repr, DecidableEq

/-- Number of non-hidden commands (`commands_count` in
`cli_command_help`). -/
def visibleCount (cmds : List CliCommand) : Nat :=
  (cmds.filter (fun c => !c.hidden)).length

/-- Value `commands_per_column` as computed by `cli_command_help`:
`(commands_count / columns) + (commands_count % columns)` with
`columns = 3`. -/
def commands_per_column (commands_count : Nat) : Nat :=
  commands_count / 3 + commands_count % 3

/-- One printed row of the help listing: column `c`'s iterator starts at
source position `c * R` and advances once per row, so at row `r` it is at
position `c * R + r`; an in-range non-hidden entry is printed, a hidden or
out-of-range position prints nothing. -/
def helpRow (cmds : List CliCommand) (R r : Nat) : List String :=
  (List.range 3).filterMap (fun c =>
    match cmds[c * R + r]? with
    | some e => if e.hidden then none else some e.name
    | none => none)

/-- The sequence of command names printed by `cli_command_help`, in print
order (rows outer, columns inner). -/
def cli_command_help (cmds : List CliCommand) : List String :=
  let R := commands_per_column (visibleCount cmds)
  ((List.range R).map (helpRow cmds R)).flatten

/-- Ceiling division by 3, written from the spec's words: the ceiling of
`V` divided by `N = 3`. -/
def ceilDiv3 (V : Nat) : Nat := (V + 3 - 1) / 3

/-! ### Stream buffer lemmas -/

theorem take_append_take (l m : List Nat) (n : Nat) :
    (l.take n ++ m).take n = (l ++ m).take n := by
  rcases le_or_lt n l.length with h | h
  · have hl : n ≤ (l.take n).length := by
      rw [List.length_take]
      omega
    rw [List.take_append_of_le_length hl, List.take_append_of_le_length h,
      List.take_take, min_self]
  · rw [List.take_of_length_le (le_of_lt h)]

theorem take_min_length (p : List Nat) (k : Nat) :
    p.take (min p.length k) = p.take k := by
  rcases le_total p.length k with h | h
  · rw [min_eq_left h, List.take_length, List.take_of_length_le h]
  · rw [min_eq_right h]

theorem send_data (sb : StreamBuffer) (p : List Nat)
    (h : sb.data.length ≤ sb.capacity) :
    (furi_stream_buffer_send sb p).1 =
      ⟨sb.capacity, (sb.data ++ p).take sb.capacity⟩ := by
  cases sb with
  | mk C d =>
    simp only [furi_stream_buffer_send] at *
    congr 1
    rw [List.take_append_eq_append_take, List.take_of_length_le h,
      take_min_length]

theorem txAll_data (ps : List (List Nat)) :
    ∀ sb : StreamBuffer, sb.data.length ≤ sb.capacity →
      txAll sb ps = ⟨sb.capacity, (sb.data ++ ps.flatten).take sb.capacity⟩ := by
  induction ps with
  | nil =>
    intro sb h
    cases sb with
    | mk C d =>
      simp only [txAll, List.foldl_nil, List.flatten_nil, List.append_nil]
      rw [List.take_of_length_le h]
  | cons p ps ih =>
    intro sb h
    have hstep : cli_command_log_tx_callback sb p =
        ⟨sb.capacity, (sb.data ++ p).take sb.capacity⟩ := by
      rw [cli_command_log_tx_callback, send_data sb p h]
    have hlen : (((sb.data ++ p).take sb.capacity : List Nat)).length ≤
        sb.capacity := by
      rw [List.length_take]
      exact Nat.min_le_left _ _
    calc txAll sb (p :: ps)
        = txAll ⟨sb.capacity, (sb.data ++ p).take sb.capacity⟩ ps := by
          rw [txAll, List.foldl_cons, hstep]
          rfl
      _ = ⟨sb.capacity,
            ((sb.data ++ p).take sb.capacity ++ ps.flatten).take sb.capacity⟩ :=
          ih _ hlen
      _ = ⟨sb.capacity, (sb.data ++ (p :: ps).flatten).take sb.capacity⟩ := by
          rw [take_append_take, List.flatten_cons, List.append_assoc]

theorem drainAll_eq (sb : StreamBuffer) : drainAll sb = sb.data := by
  generalize hn : sb.data.length = n
  induction n using Nat.strong_induction_on generalizing sb with
  | _ n ih =>
    rw [drainAll]
    by_cases h : sb.data = []
    · rw [dif_pos h, h]
    · rw [dif_neg h]
      have hlt : (furi_stream_buffer_receive sb
          CLI_COMMAND_LOG_BUFFER_SIZE).1.data.length < n := by
        simp only [furi_stream_buffer_receive, List.length_drop]
        have hd : sb.data.length ≠ 0 :=
          fun hz => h (List.eq_nil_of_length_eq_zero hz)
        have hb : CLI_COMMAND_LOG_BUFFER_SIZE = 64 := rfl
        omega
      rw [ih _ hlt _ rfl]
      simp only [furi_stream_buffer_receive]
      exact List.take_append_drop _ _

theorem txAll_empty_drain (C : Nat) (ps : List (List Nat)) :
    drainAll (txAll ⟨C, []⟩ ps) = ps.flatten.take C := by
  rw [drainAll_eq, txAll_data ps ⟨C, []⟩ (by simp)]
  rfl

/-- C6: for every capacity `C` and every sequence of producer writes whose
cumulative byte size is at most `C`, performing the writes via the
non-blocking producer path (`cli_command_log_tx_callback`) and then
reading until empty yields exactly the concatenation of the written
bytes, in original order, with no loss. -/
theorem c6_relay_buffer_no_loss (C : Nat) (ps : List (List Nat))
    (h : (ps.map List.length).sum ≤ C) :
    drainAll (txAll ⟨C, []⟩ ps) = ps.flatten := by
  rw [txAll_empty_drain, List.take_of_length_le]
  rw [List.length_flatten]
  exact h

theorem c6_witness :
    drainAll (txAll ⟨4, []⟩ [[1, 2], [3]]) = List.flatten [[1, 2], [3]] :=
  c6_relay_buffer_no_loss 4 [[1, 2], [3]] (by decide)

/-- C7: for every sequence of producer writes whose cumulative byte size
exceeds the capacity `C`, the total number of bytes the consumer can read
is at most `C`, and the bytes read are a subsequence of the producer
stream (dropping only, never reordering). -/
theorem c7_relay_buffer_overflow (C : Nat) (ps : List (List Nat))
    (h : C < (ps.map List.length).sum) :
    (drainAll (txAll ⟨C, []⟩ ps)).length ≤ C ∧
      List.Sublist (drainAll (txAll ⟨C, []⟩ ps)) ps.flatten := by
  rw [txAll_empty_drain]
  constructor
  · rw [List.length_take]
    exact Nat.min_le_left _ _
  · exact List.take_sublist C ps.flatten

theorem c7_witness :
    (drainAll (txAll ⟨2, []⟩ [[1, 2], [3]])).length ≤ 2 ∧
      List.Sublist (drainAll (txAll ⟨2, []⟩ [[1, 2], [3]]))
        (List.flatten [[1, 2], [3]]) :=
  c7_relay_buffer_overflow 2 [[1, 2], [3]] (by decide)

/-! ### Log relay lemmas -/

theorem runEvents_append (st : LogState) (a b : List LogEvent) :
    runEvents st (a ++ b) = runEvents (runEvents st a) b :=
  List.foldl_append applyEvent st a b

theorem logLoopEvents_eq_nil (token : Nat → Bool) (i fuel : Nat)
    (h : token (2 * i) = true) : logLoopEvents token i fuel = [] := by
  cases fuel with
  | zero => rfl
  | succ n => simp [logLoopEvents, h]

theorem countReads_logLoop (token : Nat → Bool) (hmono : TokenMono token)
    (t : Nat) (ht : token t = true) :
    ∀ fuel i, countReadsAtOrAfter t (logLoopEvents token i fuel) ≤ 1 := by
  intro fuel
  induction fuel with
  | zero =>
    intro i
    simp [logLoopEvents, countReadsAtOrAfter]
  | succ n ih =>
    intro i
    by_cases hc : token (2 * i) = true
    · simp [logLoopEvents, hc, countReadsAtOrAfter]
    · rw [logLoopEvents, if_neg hc]
      by_cases hti : t ≤ 2 * i + 1
      · have hnext : token (2 * (i + 1)) = true :=
          hmono t (2 * (i + 1)) (by omega) ht
        rw [logLoopEvents_eq_nil token (i + 1) n hnext]
        simp [countReadsAtOrAfter, isReadAtOrAfter, hti]
      · have hrest := ih (i + 1)
        simp only [countReadsAtOrAfter, List.countP_cons, isReadAtOrAfter] at hrest ⊢
        simp [hti]
        omega

theorem runEvents_logLoop (token : Nat → Bool) :
    ∀ fuel i st, runEvents st (logLoopEvents token i fuel) = st := by
  intro fuel
  induction fuel with
  | zero =>
    intro i st
    rfl
  | succ n ih =>
    intro i st
    by_cases hc : token (2 * i) = true
    · simp [logLoopEvents, hc, runEvents]
    · rw [logLoopEvents, if_neg hc]
      show runEvents st (_ :: _ :: _) = st
      simp only [runEvents, List.foldl_cons]
      exact ih (i + 1) _

theorem countP_logLoop (token : Nat → Bool) (p : LogEvent → Bool)
    (hr : ∀ s, p (LogEvent.readBuffer s) = false)
    (hw : ∀ s, p (LogEvent.writeOutput s) = false) :
    ∀ fuel i, (logLoopEvents token i fuel).countP p = 0 := by
  intro fuel
  induction fuel with
  | zero =>
    intro i
    rfl
  | succ n ih =>
    intro i
    by_cases hc : token (2 * i) = true
    · simp [logLoopEvents, hc]
    · rw [logLoopEvents, if_neg hc]
      simp [List.countP_cons, hr, hw, ih (i + 1)]

/-- C3: when the log command is invoked with an argument that is not a
recognised level name, the handler's whole trace is allocate, print the
level-help text, free; the global state (level and handler registration)
is unchanged and no log sink is ever registered. -/
theorem c3_log_invalid_level (st : LogState) (args : String)
    (parse : String → Option FuriLogLevel) (token : Nat → Bool) (fuel : Nat)
    (hargs : 0 < args.length) (hparse : parse args = none) :
    cli_command_log st args parse token fuel =
        [LogEvent.allocRing, LogEvent.printHelp, LogEvent.freeRing] ∧
      runEvents st (cli_command_log st args parse token fuel) = st ∧
      (cli_command_log st args parse token fuel).countP isAddHandler = 0 := by
  have h : cli_command_log st args parse token fuel =
      [LogEvent.allocRing, LogEvent.printHelp, LogEvent.freeRing] := by
    simp [cli_command_log, hargs, hparse]
  refine ⟨h, ?_, ?_⟩ <;> rw [h]
  · simp [runEvents, applyEvent]
  · simp [List.countP_cons, isAddHandler]

theorem c3_witness :
    cli_command_log ⟨FuriLogLevel.info, 0⟩ "bogus" (fun _ => none)
        (fun _ => true) 0 =
        [LogEvent.allocRing, LogEvent.printHelp, LogEvent.freeRing] ∧
      runEvents ⟨FuriLogLevel.info, 0⟩
          (cli_command_log ⟨FuriLogLevel.info, 0⟩ "bogus" (fun _ => none)
            (fun _ => true) 0) =
        ⟨FuriLogLevel.info, 0⟩ ∧
      (cli_command_log ⟨FuriLogLevel.info, 0⟩ "bogus" (fun _ => none)
          (fun _ => true) 0).countP isAddHandler = 0 :=
  c3_log_invalid_level ⟨FuriLogLevel.info, 0⟩ "bogus" (fun _ => none)
    (fun _ => true) 0 (by decide) rfl

/-- C4: a log relay session that begins with global level `info`, is given
a valid level argument naming `debug`, and runs to cancellation with no
concurrent external modification, leaves the global log level equal to
`info` after the handler returns. -/
theorem c4_log_level_restored (st : LogState) (args : String)
    (parse : String → Option FuriLogLevel) (token : Nat → Bool) (fuel : Nat)
    (hlevel : st.level = FuriLogLevel.info)
    (hargs : 0 < args.length)
    (hparse : parse args = some FuriLogLevel.debug) :
    (runEvents st (cli_command_log st args parse token fuel)).level =
      FuriLogLevel.info := by
  simp only [cli_command_log, hparse, if_pos hargs]
  rw [runEvents_append, runEvents_append, runEvents_logLoop]
  simp [runEvents, applyEvent, hlevel]

theorem c4_witness :
    (runEvents ⟨FuriLogLevel.info, 0⟩
        (cli_command_log ⟨FuriLogLevel.info, 0⟩ "debug"
          (fun s => if s = "debug" then some FuriLogLevel.debug else none)
          (fun u => decide (3 ≤ u)) 5)).level = FuriLogLevel.info :=
  c4_log_level_restored ⟨FuriLogLevel.info, 0⟩ "debug"
    (fun s => if s = "debug" then some FuriLogLevel.debug else none)
    (fun u => decide (3 ≤ u)) 5 rfl (by decide) (by decide)

/-- C5: in the log relay loop, from any fine time `t` at which the
(monotone) cancellation token is set, at most one more buffer read occurs,
and the trace ends with unregistering the log sink, then restoring the
level, then freeing the ring: the sink is removed before the level-restore
step and before the handler returns. -/
theorem c5_relay_cancellation (st : LogState) (args : String)
    (parse : String → Option FuriLogLevel) (token : Nat → Bool)
    (fuel t : Nat) (lvl : FuriLogLevel)
    (hmono : TokenMono token) (ht : token t = true)
    (hargs : 0 < args.length) (hparse : parse args = some lvl) :
    countReadsAtOrAfter t (cli_command_log st args parse token fuel) ≤ 1 ∧
      ∃ pre, cli_command_log st args parse token fuel =
        pre ++ [LogEvent.removeHandler, LogEvent.setLevel st.level,
          LogEvent.freeRing] := by
  constructor
  · simp only [cli_command_log, hparse, if_pos hargs, countReadsAtOrAfter,
      List.countP_append, List.countP_cons, List.countP_nil, isReadAtOrAfter]
    have := countReads_logLoop token hmono t ht fuel 0
    simp only [countReadsAtOrAfter] at this
    simp
    omega
  · refine ⟨[LogEvent.allocRing, LogEvent.setLevel lvl,
      LogEvent.printCurrentLevel, LogEvent.addHandler] ++
        logLoopEvents token 0 fuel, ?_⟩
    simp [cli_command_log, hparse, if_pos hargs]

theorem c5_witness :
    countReadsAtOrAfter 4
        (cli_command_log ⟨FuriLogLevel.info, 0⟩ "debug"
          (fun s => if s = "debug" then some FuriLogLevel.debug else none)
          (fun u => decide (3 ≤ u)) 5) ≤ 1 ∧
      ∃ pre, cli_command_log ⟨FuriLogLevel.info, 0⟩ "debug"
          (fun s => if s = "debug" then some FuriLogLevel.debug else none)
          (fun u => decide (3 ≤ u)) 5 =
        pre ++ [LogEvent.removeHandler,
          LogEvent.setLevel (⟨FuriLogLevel.info, 0⟩ : LogState).level,
          LogEvent.freeRing] :=
  c5_relay_cancellation ⟨FuriLogLevel.info, 0⟩ "debug"
    (fun s => if s = "debug" then some FuriLogLevel.debug else none)
    (fun u => decide (3 ≤ u)) 5 4 FuriLogLevel.debug
    (fun i j hij hi => by
      simp only [decide_eq_true_eq] at hi ⊢
      omega)
    (by decide) (by decide) (by decide)

/-- C9: on every path of the log handler the trace starts with the ring
allocation and ends with the ring free, no other allocation or free of the
ring happens in between, and on the invalid-level-argument path no log
sink is ever registered and the trace is exactly allocate, print help,
free. -/
theorem c9_log_buffer_freed (st : LogState) (args : String)
    (parse : String → Option FuriLogLevel) (token : Nat → Bool)
    (fuel : Nat) :
    (∃ mid, cli_command_log st args parse token fuel =
        LogEvent.allocRing :: mid ++ [LogEvent.freeRing] ∧
        mid.countP isAllocRing = 0 ∧ mid.countP isFreeRing = 0) ∧
      (0 < args.length → parse args = none →
        (cli_command_log st args parse token fuel).countP isAddHandler = 0 ∧
          cli_command_log st args parse token fuel =
            [LogEvent.allocRing, LogEvent.printHelp, LogEvent.freeRing]) := by
  have halloc := countP_logLoop token isAllocRing (fun s => rfl) (fun s => rfl)
    fuel 0
  have hfree := countP_logLoop token isFreeRing (fun s => rfl) (fun s => rfl)
    fuel 0
  by_cases hargs : 0 < args.length
  · cases hp : parse args with
    | none =>
      have h : cli_command_log st args parse token fuel =
          [LogEvent.allocRing, LogEvent.printHelp, LogEvent.freeRing] := by
        simp [cli_command_log, hargs, hp]
      refine ⟨⟨[LogEvent.printHelp], ?_, by decide, by decide⟩,
        fun _ _ => ⟨?_, h⟩⟩
      · rw [h]
        rfl
      · rw [h]
        decide
    | some lvl =>
      constructor
      · refine ⟨[LogEvent.setLevel lvl, LogEvent.printCurrentLevel,
          LogEvent.addHandler] ++ logLoopEvents token 0 fuel ++
            [LogEvent.removeHandler, LogEvent.setLevel st.level], ?_, ?_, ?_⟩
        · simp [cli_command_log, hargs, hp]
        · simp [List.countP_append, List.countP_cons, isAllocRing, halloc]
        · simp [List.countP_append, List.countP_cons, isFreeRing, hfree]
      · intro _ hnone
        cases hnone
  · constructor
    · refine ⟨[LogEvent.printCurrentLevel, LogEvent.addHandler] ++
        logLoopEvents token 0 fuel ++ [LogEvent.removeHandler], ?_, ?_, ?_⟩
      · simp [cli_command_log, hargs]
      · simp [List.countP_append, List.countP_cons, isAllocRing, halloc]
      · simp [List.countP_append, List.countP_cons, isFreeRing, hfree]
    · intro hc
      exact absurd hc hargs

theorem c9_witness :
    (∃ mid, cli_command_log ⟨FuriLogLevel.info, 0⟩ "bogus" (fun _ => none)
        (fun _ => true) 3 =
        LogEvent.allocRing :: mid ++ [LogEvent.freeRing] ∧
        mid.countP isAllocRing = 0 ∧ mid.countP isFreeRing = 0) ∧
      (0 < "bogus".length → (fun _ => none : String → Option FuriLogLevel)
          "bogus" = none →
        (cli_command_log ⟨FuriLogLevel.info, 0⟩ "bogus" (fun _ => none)
            (fun _ => true) 3).countP isAddHandler = 0 ∧
          cli_command_log ⟨FuriLogLevel.info, 0⟩ "bogus" (fun _ => none)
              (fun _ => true) 3 =
            [LogEvent.allocRing, LogEvent.printHelp, LogEvent.freeRing]) :=
  c9_log_buffer_freed ⟨FuriLogLevel.info, 0⟩ "bogus" (fun _ => none)
    (fun _ => true) 3

/-! ### Live refresh loop (`top`) -/

/-- C1 counterexample: it is not true that with refresh interval 0 exactly
one frame is rendered for every state of the cancellation token — with the
token already set before the first iteration, the loop condition fails at
once and zero frames are rendered. -/
theorem c1_counterexample :
    ¬ ∀ token : Nat → Bool, countFrames (cli_command_top 0 token 1) = 1 :=
  fun h => absurd (h (fun _ => true)) (by decide)

/-- C1 (amended): with refresh interval 0, `cli_command_top` renders
exactly one frame when the cancellation token is unset at the loop's first
check, and zero frames when the token is already set before the first
iteration; in no case more than one. -/
theorem c1_top_interval_zero (token : Nat → Bool) (fuel : Nat)
    (hfuel : 1 ≤ fuel) :
    countFrames (cli_command_top 0 token fuel) =
      if token 0 then 0 else 1 := by
  obtain ⟨k, rfl⟩ : ∃ k, fuel = k + 1 := ⟨fuel - 1, by omega⟩
  by_cases h0 : token 0 = true <;>
    simp [cli_command_top, topLoopEvents, countFrames, isFrame, h0]

theorem c1_witness :
    countFrames (cli_command_top 0 (fun _ => false) 1) =
      if (fun _ : Nat => false) 0 then 0 else 1 :=
  c1_top_interval_zero (fun _ => false) 1 (by decide)

/-- C10 counterexample: it is not true that for every negative refresh
interval the top command executes exactly one loop iteration — with the
cancellation token already set before the first check, zero frames are
rendered, exactly as with interval 0. -/
theorem c10_counterexample :
    ¬ ∀ interval : Int, interval < 0 →
        ∀ token : Nat → Bool,
          countFrames (cli_command_top interval token 1) = 1 :=
  fun h => absurd (h (-1) (by decide) (fun _ => true)) (by decide)

/-- C10 (amended): for every negative refresh interval the top command
renders the same number of frames as with interval 0 (at most one: exactly
one when the token is unset at the first check, zero when it is already
set), but, unlike interval 0, it emits the clear-screen/hide-cursor escape
sequence at entry and the show-cursor sequence at exit, because the branch
guarding those writes tests the interval for being nonzero rather than
positive. -/
theorem c10_top_negative_interval (interval : Int) (token : Nat → Bool)
    (fuel : Nat) (hneg : interval < 0) (hfuel : 1 ≤ fuel) :
    countFrames (cli_command_top interval token fuel) =
        countFrames (cli_command_top 0 token fuel) ∧
      countFrames (cli_command_top interval token fuel) ≤ 1 ∧
      (token 0 = false →
        cli_command_top interval token fuel =
          [TopEvent.clearHideCursor, TopEvent.cursorToOrigin, TopEvent.frame,
            TopEvent.showCursor]) ∧
      (token 0 = true →
        cli_command_top interval token fuel =
          [TopEvent.clearHideCursor, TopEvent.showCursor]) ∧
      TopEvent.clearHideCursor ∉ cli_command_top 0 token fuel ∧
      TopEvent.showCursor ∉ cli_command_top 0 token fuel := by
  obtain ⟨k, rfl⟩ : ∃ k, fuel = k + 1 := ⟨fuel - 1, by omega⟩
  have hne : interval ≠ 0 := by omega
  have hnp : ¬ interval > 0 := by omega
  by_cases h0 : token 0 = true <;>
    simp [cli_command_top, topLoopEvents, countFrames, isFrame, h0, hne, hnp]

theorem c10_witness :
    countFrames (cli_command_top (-1) (fun _ => false) 1) =
      countFrames (cli_command_top 0 (fun _ => false) 1) :=
  (c10_top_negative_interval (-1) (fun _ => false) 1 (by decide) (by decide)).1

/-! ### Column paginator (`help`) -/

/-- C2 counterexample: the rows-per-column value `V/3 + V%3` is not in
general the ceiling of `V/3`: at `V = 5` the code computes `1 + 2 = 3`
while the ceiling is `2`. -/
theorem c2_counterexample :
    ¬ ∀ V : Nat, commands_per_column V = ceilDiv3 V :=
  fun h => absurd (h 5) (by decide)

/-- C2 (amended): the rows-per-column value `V/3 + V%3` equals the ceiling
of `V/3` exactly when `V mod 3 ≤ 1` (in particular at the spec's example
`V = 7`), and exceeds the ceiling by one when `V mod 3 = 2`. -/
theorem c2_rows_per_column (V : Nat) :
    commands_per_column V =
      ceilDiv3 V + (if V % 3 = 2 then 1 else 0) := by
  unfold commands_per_column ceilDiv3
  split <;> omega

theorem ceilDiv3_is_ceiling (V : Nat) :
    V ≤ 3 * ceilDiv3 V ∧ 3 * ceilDiv3 V ≤ V + 2 := by
  unfold ceilDiv3
  omega

/-- Command list witnessing C8: one hidden entry followed by three visible
ones. -/
def c8Commands : List CliCommand :=
  [⟨"neofetch", true⟩, ⟨"info", false⟩, ⟨"help", false⟩, ⟨"log", false⟩]

/-- C8: there is a command list with a hidden entry for which a non-hidden
entry is never printed by the help command: the rows-per-column count is
computed from the visible count only, the three column cursors traverse at
most `3 * R` positions of the full list, and here `3 * R` is smaller than
the list length, so the visible entry at the last position is skipped. -/
theorem c8_hidden_entry_truncates_help :
    (∃ e ∈ c8Commands, e.hidden = true) ∧
      3 * commands_per_column (visibleCount c8Commands) <
        c8Commands.length ∧
      ∃ e ∈ c8Commands, e.hidden = false ∧
        e.name ∉ cli_command_help c8Commands := by
  decide

end CliCommands


